import Mathlib

/-!
Verification of `src/tools/merge/cherry-pick.py` (class `CherryPicker` and `main`).

The pure string-processing functions (`has_conflicts`, `parse_commits_file`,
`is_git_operation_in_progress`) are embedded directly over `List Char`.
The interactive orchestrator (`cherry_pick_commit`, `handle_ongoing_operation`,
`run`, `main`) is embedded as a deterministic interpreter over an environment
`Env` of time-indexed responses from the external world (git subprocess results
and the human's keyboard input); each external interaction advances a clock,
git mutations are additionally recorded in an event trace, and the ledger
counters (`successful_picks`, `skipped_commits`, `failed_commits`,
`total_commits`) are threaded through a context `Ctx`.  `sys.exit`,
uncaught Python exceptions and the unbounded user-input loops are modelled by
the result type `Res` (`exited`, `raised`, `fuelOut`); display-only git calls
(`git show`, the `git status` prints of `show_conflict_status`) do not affect
control flow in the source and are not modelled.
-/

namespace CherryPick

/-! ## Character and string helpers (Python `str` operations used by the script) -/

/-- Whitespace characters stripped by Python's `str.strip()` (the ones relevant
to text files). -/
def isWs (c : Char) : Bool :=
  c == ' ' || c == '\t' || c == '\n' || c == '\r' || c == '\x0b' || c == '\x0c'

/-- Python `str.strip()`. -/
def trimCh (s : List Char) : List Char :=
  ((s.dropWhile isWs).reverse.dropWhile isWs).reverse

/-- Python `str.split('\n')`. -/
def splitLines : List Char → List (List Char)
  | [] => [[]]
  | c :: rest =>
    if c == '\n' then [] :: splitLines rest
    else
      match splitLines rest with
      | [] => [[c]]
      | l :: ls => (c :: l) :: ls

/-- Python `str.lower()` on the characters that occur here. -/
def lowerLine (s : List Char) : List Char := s.map Char.toLower

/-- Is `pat` an initial segment of `s`?  (Python `str.startswith`.) -/
def leadsWith : List Char → List Char → Bool
  | [], _ => true
  | _ :: _, [] => false
  | p :: ps, c :: cs => p == c && leadsWith ps cs

/-- Is `pat` a contiguous substring of `s`?  (Python `pat in s`.) -/
def containsSub (pat : List Char) : List Char → Bool
  | [] => leadsWith pat []
  | c :: cs => leadsWith pat (c :: cs) || containsSub pat cs

/-! ## `CherryPicker.has_conflicts` (cherry-pick.py lines 92-104)

The source strips the `git status --porcelain` output, splits it on newlines,
and flags a conflict when a line has at least two characters and
`line[0] == 'U' or line[1] == 'U' or line.startswith('AA') or
line.startswith('DD')`. -/

/-- The per-line conflict test of the `has_conflicts` loop body. -/
def lineIsConflict (line : List Char) : Bool :=
  match line with
  | c0 :: c1 :: _ =>
    c0 == 'U' || c1 == 'U' || (c0 == 'A' && c1 == 'A') || (c0 == 'D' && c1 == 'D')
  | _ => false

/-- `CherryPicker.has_conflicts`, as a function of the raw
`git status --porcelain` stdout. -/
def has_conflicts (stdout : List Char) : Bool :=
  (splitLines (trimCh stdout)).any lineIsConflict

/-! ## `CherryPicker.is_git_operation_in_progress` (lines 61-85)

The source first resolves the git directory; if `git rev-parse --git-dir`
fails (the tree is not a repository) the `CalledProcessError` is caught and
the function returns `(False, "")`.  Otherwise it checks marker files in
insertion order of the `operations` dict, then the `rebase-apply` directory. -/

/-- `CherryPicker.is_git_operation_in_progress`.  `repoValid` is whether
`git rev-parse --git-dir` succeeds; `marker p` is whether the path `p` exists
under the resolved git directory. -/
def is_git_operation_in_progress (repoValid : Bool) (marker : String → Bool) :
    Bool × String :=
  if repoValid = false then (false, "")
  else if marker "CHERRY_PICK_HEAD" then (true, "cherry-pick")
  else if marker "rebase-merge/interactive" then (true, "rebase")
  else if marker "MERGE_HEAD" then (true, "merge")
  else if marker "REVERT_HEAD" then (true, "revert")
  else if marker "rebase-apply" then (true, "rebase")
  else (false, "")

/-! ## `CherryPicker.parse_commits_file` (lines 265-321) -/

/-- Lowercase hex digit, the character class of the source's regex
`^([a-f0-9]{7,})`. -/
def isHexLower (c : Char) : Bool :=
  ('a' ≤ c && c ≤ 'f') || ('0' ≤ c && c ≤ '9')

/-- `re.match(r'^([a-f0-9]{7,})', line)`: the (greedy) maximal hex run at the
start of the line, provided it has at least 7 characters. -/
def hashMatch (line : List Char) : Option String :=
  let run := line.takeWhile isHexLower
  if 7 ≤ run.length then some ⟨run⟩ else none

/-- The loop state of `parse_commits_file`: the `in_oldest_first` flag and the
`commits` accumulator. -/
structure ParseState where
  inOldest : Bool
  commits : List String
  deriving DecidableEq

/-- One iteration of the `for line in lines` loop of `parse_commits_file`. -/
def parseLine (st : ParseState) (raw : List Char) : ParseState :=
  let line := trimCh raw
  if line = [] then st
  else if containsSub "oldest first".data (lowerLine line) then
    { st with inOldest := true }
  else if containsSub "newest first".data (lowerLine line) ||
          leadsWith "Detailed".data line then
    { st with inOldest := false }
  else if leadsWith "#".data line then st
  else if st.inOldest then
    match hashMatch line with
    | some h => { st with commits := st.commits ++ [h] }
    | none => st
  else if st.commits = [] then
    match hashMatch line with
    | some h => { st with commits := st.commits ++ [h] }
    | none => st
  else st

/-- `CherryPicker.parse_commits_file`, as a function of the file's content
(the file is assumed readable here; an unreadable file is modelled at the
`run` level).  Returns `Except` like the source raising `CherryPickError`
when no commit hash is found; `startFrom` reproduces the `commits.index` /
`ValueError` logic. -/
def parse_commits_file (content : List Char) (startFrom : Option String) :
    Except String (List String) :=
  let st := (splitLines content).foldl parseLine ⟨false, []⟩
  if st.commits = [] then .error "No valid commit hashes found in the file"
  else
    match startFrom with
    | none => .ok st.commits
    | some sf =>
      match st.commits.findIdx? (· = sf) with
      | some i => .ok (st.commits.drop i)
      | none => .ok st.commits

example : has_conflicts "UU src/main.py".data = true := by decide
example : has_conflicts "M  src/main.py".data = false := by decide
example : has_conflicts "".data = false := by decide
example : parse_commits_file "abcdef1 newest first\nfedcba9 fix".data none =
    .ok ["fedcba9"] := by rfl
example : parse_commits_file "oldest first\nabcdef1\nfedcba2".data none =
    .ok ["abcdef1", "fedcba2"] := by rfl
example : parse_commits_file "abc1234 one\ndef5678 two".data none =
    .ok ["abc1234"] := by rfl
example : is_git_operation_in_progress false (fun _ => true) = (false, "") := by decide

/-! ## The interactive orchestrator

`Env` gives the external world's response to the `t`-th modelled interaction
of the run: the return code of `git cherry-pick <hash>` / `git cherry-pick
--continue`, the answer of `is_git_operation_in_progress`, the result of a
`has_conflicts` query (`none` models the underlying `git status --porcelain`
failing, which raises `CherryPickError` through `has_conflicts` — the one
uncaught-exception source on these paths), and the human's raw `input()`. -/

structure Env where
  pickRet : Nat → String → Int
  contRet : Nat → Int
  opInProg : Nat → Bool × String
  conflicts : Nat → Option Bool
  userInput : Nat → String

/-- Git mutations issued by the script (the calls that change repository
state), recorded in order. -/
inductive Call where
  | gitCherryPick : String → Call
  | gitContinue : Call
  | gitAbort : Call
  deriving DecidableEq

/-- Interpreter context: interaction clock, the four `CherryPicker` counters,
the mutation trace, whether `print_summary` ran, and whether the run was
abandoned through `handle_ongoing_operation` returning `False`. -/
structure Ctx where
  time : Nat
  successful : Nat
  skipped : Nat
  failed : Nat
  total : Nat
  trace : List Call
  summaryPrinted : Bool
  abandoned : Bool
  deriving DecidableEq

def Ctx.init : Ctx := ⟨0, 0, 0, 0, 0, [], false, false⟩

def tick (c : Ctx) : Ctx := { c with time := c.time + 1 }

def push (c : Ctx) (e : Call) : Ctx := { c with trace := c.trace ++ [e] }

def incSucc (c : Ctx) : Ctx := { c with successful := c.successful + 1 }

def incSkip (c : Ctx) : Ctx := { c with skipped := c.skipped + 1 }

def incFail (c : Ctx) : Ctx := { c with failed := c.failed + 1 }

/-- Result of a piece of the script: normal value, `sys.exit(code)`, an
uncaught exception, or the interaction bound (`fuel`) for a user-input loop
ran out (the loops in the source have no bound; `fuelOut` truncates an
infinite dialogue).  Every constructor carries the context at that moment. -/
inductive Res (α : Type) where
  | ok : α → Ctx → Res α
  | exited : Nat → Ctx → Res α
  | raised : Ctx → Res α
  | fuelOut : Ctx → Res α
  deriving DecidableEq

/-- The context carried by a result. -/
def ctxOf : Res α → Ctx
  | .ok _ c => c
  | .exited _ c => c
  | .raised c => c
  | .fuelOut c => c

/-- `self.has_conflicts()` as an interaction: in dry-run mode
`run_git_command` returns an empty status without touching git, so the answer
is `False` with no external interaction; otherwise `git status --porcelain`
runs (and may fail, raising `CherryPickError`, which nothing below `main`
catches). -/
def hasConflictsM (env : Env) (dryRun : Bool) (c : Ctx) : Res Bool :=
  if dryRun then .ok false c
  else
    match env.conflicts c.time with
    | some b => .ok b (tick c)
    | none => .raised (tick c)

/-- `input().strip().lower()`. -/
def normalize (s : String) : String := ⟨lowerLine (trimCh s.data)⟩

/-- The outcome of `wait_for_user_confirmation`'s decision loop. -/
inductive Act where
  | contin
  | skip
  | quit
  deriving DecidableEq

/-- The `while True` prompt loop of `wait_for_user_confirmation`
(lines 148-167): `y` returns `'continue'`, `s` returns `'skip'`, `q` returns
`'quit'`, and `n` or anything else re-prompts.  The conflict display before
the loop is presentation only. -/
def userLoop (env : Env) : Nat → Ctx → Res Act
  | 0, c => .fuelOut c
  | fuel + 1, c =>
    let choice := normalize (env.userInput c.time)
    let c := tick c
    if choice = "y" then .ok .contin c
    else if choice = "s" then .ok .skip c
    else if choice = "q" then .ok .quit c
    else userLoop env fuel c

/-- The `elif self.has_conflicts(): ... else:` tail of `cherry_pick_commit`
(lines 242-263): a fresh `has_conflicts` query; on conflicts the user loop
runs and `continue` records a success with no further git call, `skip` runs
`git cherry-pick --abort` and records a skip, `quit` is `sys.exit(0)`; with
no conflicts the commit is recorded failed. -/
def conflictOrFail (env : Env) (dryRun : Bool) (fuel : Nat) (c : Ctx) : Res Bool :=
  match hasConflictsM env dryRun c with
  | .ok confl c =>
    if confl then
      match userLoop env fuel c with
      | .ok .contin c => .ok true (incSucc c)
      | .ok .skip c => .ok false (incSkip (push (tick c) .gitAbort))
      | .ok .quit c => .exited 0 c
      | .exited n c => .exited n c
      | .raised c => .raised c
      | .fuelOut c => .fuelOut c
    else .ok false (incFail c)
  | .exited n c => .exited n c
  | .raised c => .raised c
  | .fuelOut c => .fuelOut c

/-- `CherryPicker.cherry_pick_commit` (lines 203-263).  The `git show`
display (its `CherryPickError` is caught and only changes a printed line) is
not modelled. -/
def cherryPickCommit (env : Env) (dryRun : Bool) (fuel : Nat) (h : String)
    (c : Ctx) : Res Bool :=
  if dryRun then .ok true (incSucc c)
  else
    let r := env.pickRet c.time h
    let c := push (tick c) (.gitCherryPick h)
    if r = 0 then .ok true (incSucc c)
    else
      let q := env.opInProg c.time
      let c := tick c
      if q.1 && q.2 == "cherry-pick" then
        match hasConflictsM env dryRun c with
        | .ok confl c =>
          if confl then conflictOrFail env dryRun fuel c
          else
            let rc := env.contRet c.time
            let c := push (tick c) .gitContinue
            if rc = 0 then .ok true (incSucc c) else .ok false (incFail c)
        | .exited n c => .exited n c
        | .raised c => .raised c
        | .fuelOut c => .fuelOut c
      else conflictOrFail env dryRun fuel c

/-- The `while True` prompt loop of `handle_ongoing_operation`
(lines 184-201): `y` re-checks `has_conflicts()` and returns `True` only if
clear, `q` returns `False`, `n` or anything else re-prompts. -/
def ongoingLoop (env : Env) (dryRun : Bool) : Nat → Ctx → Res Bool
  | 0, c => .fuelOut c
  | fuel + 1, c =>
    let choice := normalize (env.userInput c.time)
    let c := tick c
    if choice = "y" then
      match hasConflictsM env dryRun c with
      | .ok confl c => if confl then ongoingLoop env dryRun fuel c else .ok true c
      | .exited n c => .exited n c
      | .raised c => .raised c
      | .fuelOut c => .fuelOut c
    else if choice = "q" then .ok false c
    else ongoingLoop env dryRun fuel c

/-- `CherryPicker.handle_ongoing_operation` (lines 169-201): an initial
`has_conflicts` query (whose value only selects what is printed), then the
prompt loop. -/
def handleOngoingOperation (env : Env) (dryRun : Bool) (fuel : Nat) (c : Ctx) :
    Res Bool :=
  match hasConflictsM env dryRun c with
  | .ok _ c => ongoingLoop env dryRun fuel c
  | .exited n c => .exited n c
  | .raised c => .raised c
  | .fuelOut c => .fuelOut c

/-- The `for i, commit in enumerate(commits, 1)` loop of `run`
(lines 348-358): before each commit, `is_git_operation_in_progress`; if an
operation is open, `handle_ongoing_operation`, whose `False` answer breaks
the loop (the context is marked `abandoned`); then `cherry_pick_commit`,
whose boolean result the loop ignores. -/
def runCommits (env : Env) (dryRun : Bool) (fuel : Nat) :
    List String → Ctx → Res Unit
  | [], c => .ok () c
  | h :: rest, c =>
    let q := env.opInProg c.time
    let c := tick c
    let pre : Res Bool :=
      if q.1 then handleOngoingOperation env dryRun fuel c else .ok true c
    match pre with
    | .ok true c =>
      match cherryPickCommit env dryRun fuel h c with
      | .ok _ c => runCommits env dryRun fuel rest c
      | .exited n c => .exited n c
      | .raised c => .raised c
      | .fuelOut c => .fuelOut c
    | .ok false c => .ok () { c with abandoned := true }
    | .exited n c => .exited n c
    | .raised c => .raised c
    | .fuelOut c => .fuelOut c

/-- `CherryPicker.run` (lines 323-361): the start-up ongoing-operation check
(whose `False` answer returns from `run` before the summary), reading and
parsing the commits file (failure is `sys.exit(1)`), setting
`total_commits`, the commit loop, and `print_summary` — reached both on
normal completion and on the loop's `break`, but not on `sys.exit` or an
exception.  `fileContent = none` models an unreadable commits file
(`FileNotFoundError` → `CherryPickError` → `sys.exit(1)`). -/
def runPicker (env : Env) (dryRun : Bool) (fuel : Nat)
    (fileContent : Option (List Char)) (startFrom : Option String) (c : Ctx) :
    Res Unit :=
  let q := env.opInProg c.time
  let c := tick c
  let startup : Res Bool :=
    if q.1 then handleOngoingOperation env dryRun fuel c else .ok true c
  match startup with
  | .ok true c =>
    match fileContent with
    | none => .exited 1 c
    | some content =>
      match parse_commits_file content startFrom with
      | .error _ => .exited 1 c
      | .ok commits =>
        let c := { c with total := commits.length }
        match runCommits env dryRun fuel commits c with
        | .ok () c => .ok () { c with summaryPrinted := true }
        | .exited n c => .exited n c
        | .raised c => .raised c
        | .fuelOut c => .fuelOut c
  | .ok false c => .ok () { c with abandoned := true }
  | .exited n c => .exited n c
  | .raised c => .raised c
  | .fuelOut c => .fuelOut c

/-- `main` (lines 383-434): the repository check (`sys.exit(1)` when not in a
git repository), then `run` inside `try`, where any `Exception` becomes
`sys.exit(1)` while `SystemExit` passes through; falling off the end of
`main` exits the process with code 0.  `none` means the process never
terminates (the user loops ran past any bound). -/
def mainExit (repoValid : Bool) (env : Env) (dryRun : Bool) (fuel : Nat)
    (fileContent : Option (List Char)) (startFrom : Option String) :
    Option Nat :=
  if repoValid = false then some 1
  else
    match runPicker env dryRun fuel fileContent startFrom Ctx.init with
    | .ok () _ => some 0
    | .exited n _ => some n
    | .raised _ => some 1
    | .fuelOut _ => none

/-! ## Concrete environments used in witnesses and counterexamples -/

/-- Every `git cherry-pick` fails, no operation is ever open, conflicts are
always present, and the human always answers `y`. -/
def envConfl : Env :=
  ⟨fun _ _ => 1, fun _ => 1, fun _ => (false, ""), fun _ => some true, fun _ => "y"⟩

/-- Every `git cherry-pick` fails, a cherry-pick operation is open, no
conflicts remain, and `git cherry-pick --continue` fails too. -/
def envCont : Env :=
  ⟨fun _ _ => 1, fun _ => 1, fun _ => (true, "cherry-pick"), fun _ => some false,
   fun _ => "y"⟩

/-- Every `git cherry-pick` fails, no operation is open, conflicts are
present, and the human answers `q`. -/
def envQuit : Env :=
  ⟨fun _ _ => 1, fun _ => 1, fun _ => (false, ""), fun _ => some true, fun _ => "q"⟩

/-- Every `git cherry-pick` fails, no operation is open, and
`git status --porcelain` itself fails, so `has_conflicts` raises. -/
def envRaise : Env :=
  ⟨fun _ _ => 1, fun _ => 1, fun _ => (false, ""), fun _ => none, fun _ => "y"⟩

/-- Every `git cherry-pick` succeeds and no operation is ever open. -/
def envClean : Env :=
  ⟨fun _ _ => 0, fun _ => 0, fun _ => (false, ""), fun _ => some false, fun _ => "y"⟩

/-- A commits file with an "oldest first" section holding two hashes. -/
def twoCommitFile : List Char := "oldest first\nabcdef1\nfedcba2".data

example : cherryPickCommit envConfl false 5 "abcdef1" Ctx.init =
    .ok true ⟨4, 1, 0, 0, 0, [.gitCherryPick "abcdef1"], false, false⟩ := by decide
example : cherryPickCommit envCont false 5 "abcdef1" Ctx.init =
    .ok false ⟨4, 0, 0, 1, 0, [.gitCherryPick "abcdef1", .gitContinue], false, false⟩ := by
  decide
example : runPicker envQuit false 9 (some twoCommitFile) none Ctx.init =
    .exited 0 ⟨6, 0, 0, 0, 2, [.gitCherryPick "abcdef1"], false, false⟩ := by decide
example : runPicker envRaise false 9 (some twoCommitFile) none Ctx.init =
    .raised ⟨5, 0, 0, 0, 2, [.gitCherryPick "abcdef1"], false, false⟩ := by decide
example : mainExit true envRaise false 9 (some twoCommitFile) none = some 1 := by decide
example : runCommits envClean false 3 ["abcdef1"] Ctx.init =
    .ok () ⟨2, 1, 0, 0, 0, [.gitCherryPick "abcdef1"], false, false⟩ := by decide

/-! ## Ledger bookkeeping lemmas -/

/-- The number of commits already recorded in the ledger. -/
def sumOf (c : Ctx) : Nat := c.successful + c.skipped + c.failed

/-- The ledger fields (and the abandoned flag) are unchanged from `c` to
`c'`. -/
def ledPres (c c' : Ctx) : Prop :=
  c'.successful = c.successful ∧ c'.skipped = c.skipped ∧
  c'.failed = c.failed ∧ c'.total = c.total ∧ c'.abandoned = c.abandoned

theorem ledPres_refl (c : Ctx) : ledPres c c := ⟨rfl, rfl, rfl, rfl, rfl⟩

theorem ledPres_trans {a b c : Ctx} (h1 : ledPres a b) (h2 : ledPres b c) :
    ledPres a c := by
  obtain ⟨p1, p2, p3, p4, p5⟩ := h1
  obtain ⟨q1, q2, q3, q4, q5⟩ := h2
  exact ⟨q1.trans p1, q2.trans p2, q3.trans p3, q4.trans p4, q5.trans p5⟩

theorem hasConflictsM_pres (env : Env) (dryRun : Bool) (c : Ctx) :
    ledPres c (ctxOf (hasConflictsM env dryRun c)) := by
  unfold hasConflictsM
  cases hdr : dryRun <;> simp only [Bool.false_eq_true, if_false, if_true]
  · cases env.conflicts c.time <;> exact ⟨rfl, rfl, rfl, rfl, rfl⟩
  · exact ledPres_refl c

theorem userLoop_pres (env : Env) :
    ∀ fuel (c : Ctx), ledPres c (ctxOf (userLoop env fuel c)) := by
  intro fuel
  induction fuel with
  | zero => intro c; exact ledPres_refl c
  | succ n ih =>
    intro c
    unfold userLoop
    dsimp only
    split
    · exact ⟨rfl, rfl, rfl, rfl, rfl⟩
    · split
      · exact ⟨rfl, rfl, rfl, rfl, rfl⟩
      · split
        · exact ⟨rfl, rfl, rfl, rfl, rfl⟩
        · exact ledPres_trans ⟨rfl, rfl, rfl, rfl, rfl⟩ (ih _)

theorem ongoingLoop_pres (env : Env) (dryRun : Bool) :
    ∀ fuel (c : Ctx), ledPres c (ctxOf (ongoingLoop env dryRun fuel c)) := by
  intro fuel
  induction fuel with
  | zero => intro c; exact ledPres_refl c
  | succ n ih =>
    intro c
    unfold ongoingLoop
    dsimp only
    split
    · have hTick : ledPres c (tick c) := ⟨rfl, rfl, rfl, rfl, rfl⟩
      cases hq : hasConflictsM env dryRun (tick c) with
      | ok confl c2 =>
        have hp := hasConflictsM_pres env dryRun (tick c)
        rw [hq] at hp
        simp only [ctxOf] at hp
        have hp' := ledPres_trans hTick hp
        simp only [hq]
        split
        · exact ledPres_trans hp' (ih c2)
        · exact hp'
      | exited n c2 =>
        have hp := hasConflictsM_pres env dryRun (tick c)
        rw [hq] at hp
        simp only [ctxOf] at hp
        simp only [hq]
        exact ledPres_trans hTick hp
      | raised c2 =>
        have hp := hasConflictsM_pres env dryRun (tick c)
        rw [hq] at hp
        simp only [ctxOf] at hp
        simp only [hq]
        exact ledPres_trans hTick hp
      | fuelOut c2 =>
        have hp := hasConflictsM_pres env dryRun (tick c)
        rw [hq] at hp
        simp only [ctxOf] at hp
        simp only [hq]
        exact ledPres_trans hTick hp
    · split
      · exact ⟨rfl, rfl, rfl, rfl, rfl⟩
      · exact ledPres_trans ⟨rfl, rfl, rfl, rfl, rfl⟩ (ih _)

theorem handleOngoingOperation_pres (env : Env) (dryRun : Bool) (fuel : Nat)
    (c : Ctx) : ledPres c (ctxOf (handleOngoingOperation env dryRun fuel c)) := by
  unfold handleOngoingOperation
  cases hq : hasConflictsM env dryRun c with
  | ok b c2 =>
    have hp := hasConflictsM_pres env dryRun c
    rw [hq] at hp
    simp only [ctxOf] at hp
    exact ledPres_trans hp (ongoingLoop_pres env dryRun fuel c2)
  | exited n c2 =>
    have hp := hasConflictsM_pres env dryRun c
    rw [hq] at hp
    simpa only [ctxOf] using hp
  | raised c2 =>
    have hp := hasConflictsM_pres env dryRun c
    rw [hq] at hp
    simpa only [ctxOf] using hp
  | fuelOut c2 =>
    have hp := hasConflictsM_pres env dryRun c
    rw [hq] at hp
    simpa only [ctxOf] using hp

theorem ledPres.sumOf_eq {c c' : Ctx} (h : ledPres c c') : sumOf c' = sumOf c := by
  obtain ⟨h1, h2, h3, _, _⟩ := h
  simp [sumOf, h1, h2, h3]

theorem conflictOrFail_ledger (env : Env) (dryRun : Bool) (fuel : Nat) (c : Ctx) :
    (ctxOf (conflictOrFail env dryRun fuel c)).total = c.total ∧
    (ctxOf (conflictOrFail env dryRun fuel c)).abandoned = c.abandoned ∧
    sumOf (ctxOf (conflictOrFail env dryRun fuel c)) ≤ sumOf c + 1 ∧
    (∀ b c', conflictOrFail env dryRun fuel c = .ok b c' →
      sumOf c' = sumOf c + 1) := by
  unfold conflictOrFail
  cases hq : hasConflictsM env dryRun c with
  | ok confl c2 =>
    have hp := hasConflictsM_pres env dryRun c
    rw [hq] at hp
    simp only [ctxOf] at hp
    have hps := hp.sumOf_eq
    obtain ⟨hp1, hp2, hp3, hp4, hp5⟩ := hp
    cases confl with
    | false =>
      simp only [Bool.false_eq_true, if_false, ctxOf, incFail, sumOf] at *
      refine ⟨hp4, hp5, by omega, ?_⟩
      intro b c' he
      cases he
      simp only [sumOf]
      omega
    | true =>
      simp only [if_true, ctxOf]
      cases hu : userLoop env fuel c2 with
      | ok a c3 =>
        have hu' := userLoop_pres env fuel c2
        rw [hu] at hu'
        simp only [ctxOf] at hu'
        have hus := hu'.sumOf_eq
        obtain ⟨hu1, hu2, hu3, hu4, hu5⟩ := hu'
        cases a with
        | contin =>
          simp only [ctxOf, incSucc, sumOf] at *
          refine ⟨by omega, by simpa [hu5] using hp5, by omega, ?_⟩
          intro b c' he
          cases he
          simp only [sumOf]
          omega
        | skip =>
          simp only [ctxOf, incSkip, push, tick, sumOf] at *
          refine ⟨by omega, by simpa [hu5] using hp5, by omega, ?_⟩
          intro b c' he
          cases he
          simp only [sumOf]
          omega
        | quit =>
          simp only [ctxOf, sumOf] at *
          refine ⟨by omega, by simpa [hu5] using hp5, by omega, ?_⟩
          intro b c' he
          cases he
      | exited n c3 =>
        have hu' := userLoop_pres env fuel c2
        rw [hu] at hu'
        simp only [ctxOf] at hu'
        have hus := hu'.sumOf_eq
        obtain ⟨_, _, _, hu4, hu5⟩ := hu'
        dsimp only [ctxOf]
        exact ⟨hu4.trans hp4, hu5.trans hp5, by omega, by intro b c' he; cases he⟩
      | raised c3 =>
        have hu' := userLoop_pres env fuel c2
        rw [hu] at hu'
        simp only [ctxOf] at hu'
        have hus := hu'.sumOf_eq
        obtain ⟨_, _, _, hu4, hu5⟩ := hu'
        dsimp only [ctxOf]
        exact ⟨hu4.trans hp4, hu5.trans hp5, by omega, by intro b c' he; cases he⟩
      | fuelOut c3 =>
        have hu' := userLoop_pres env fuel c2
        rw [hu] at hu'
        simp only [ctxOf] at hu'
        have hus := hu'.sumOf_eq
        obtain ⟨_, _, _, hu4, hu5⟩ := hu'
        dsimp only [ctxOf]
        exact ⟨hu4.trans hp4, hu5.trans hp5, by omega, by intro b c' he; cases he⟩
  | exited n c2 =>
    have hp := hasConflictsM_pres env dryRun c
    rw [hq] at hp
    simp only [ctxOf] at hp
    have hps := hp.sumOf_eq
    obtain ⟨_, _, _, hp4, hp5⟩ := hp
    dsimp only [ctxOf]
    exact ⟨hp4, hp5, by omega, by intro b c' he; cases he⟩
  | raised c2 =>
    have hp := hasConflictsM_pres env dryRun c
    rw [hq] at hp
    simp only [ctxOf] at hp
    have hps := hp.sumOf_eq
    obtain ⟨_, _, _, hp4, hp5⟩ := hp
    dsimp only [ctxOf]
    exact ⟨hp4, hp5, by omega, by intro b c' he; cases he⟩
  | fuelOut c2 =>
    have hp := hasConflictsM_pres env dryRun c
    rw [hq] at hp
    simp only [ctxOf] at hp
    have hps := hp.sumOf_eq
    obtain ⟨_, _, _, hp4, hp5⟩ := hp
    dsimp only [ctxOf]
    exact ⟨hp4, hp5, by omega, by intro b c' he; cases he⟩

theorem cherryPickCommit_ledger (env : Env) (dryRun : Bool) (fuel : Nat)
    (h : String) (c : Ctx) :
    (ctxOf (cherryPickCommit env dryRun fuel h c)).total = c.total ∧
    (ctxOf (cherryPickCommit env dryRun fuel h c)).abandoned = c.abandoned ∧
    sumOf (ctxOf (cherryPickCommit env dryRun fuel h c)) ≤ sumOf c + 1 ∧
    (∀ b c', cherryPickCommit env dryRun fuel h c = .ok b c' →
      sumOf c' = sumOf c + 1) := by
  unfold cherryPickCommit
  cases hdr : dryRun with
  | true =>
    simp only [if_true, ctxOf, incSucc]
    refine ⟨by trivial, by trivial, by simp [sumOf]; omega, ?_⟩
    intro b c' he
    cases he
    simp only [sumOf, incSucc]
    omega
  | false =>
    simp only [Bool.false_eq_true, if_false]
    split
    · simp only [ctxOf, incSucc, push, tick]
      refine ⟨by trivial, by trivial, by simp [sumOf]; omega, ?_⟩
      intro b c' he
      cases he
      simp only [sumOf, incSucc, push, tick]
      omega
    · set c1 := tick (push (tick c) (Call.gitCherryPick h)) with hc1
      have hled1 : ledPres c c1 := by
        simp only [hc1, tick, push]
        exact ⟨rfl, rfl, rfl, rfl, rfl⟩
      split
      · cases hq : hasConflictsM env false c1 with
        | ok confl c2 =>
          have hp := hasConflictsM_pres env false c1
          rw [hq] at hp
          simp only [ctxOf] at hp
          have hp' := ledPres_trans hled1 hp
          have hps := hp'.sumOf_eq
          obtain ⟨hp1, hp2, hp3, hp4, hp5⟩ := hp'
          cases confl with
          | true =>
            simp only [if_true]
            have hcf := conflictOrFail_ledger env false fuel c2
            obtain ⟨g1, g2, g3, g4⟩ := hcf
            refine ⟨g1.trans hp4, g2.trans hp5, by omega, ?_⟩
            intro b c' he
            have := g4 b c' he
            omega
          | false =>
            simp only [Bool.false_eq_true, if_false]
            split
            · dsimp only [ctxOf]
              simp only [incSucc, push, tick, sumOf] at *
              refine ⟨by omega, by simpa using hp5, by omega, ?_⟩
              intro b c' he
              cases he
              simp only [sumOf, incSucc, push, tick]
              omega
            · dsimp only [ctxOf]
              simp only [incFail, push, tick, sumOf] at *
              refine ⟨by omega, by simpa using hp5, by omega, ?_⟩
              intro b c' he
              cases he
              simp only [sumOf, incFail, push, tick]
              omega
        | exited n c2 =>
          have hp := hasConflictsM_pres env false c1
          rw [hq] at hp
          simp only [ctxOf] at hp
          have hp' := ledPres_trans hled1 hp
          have hps := hp'.sumOf_eq
          obtain ⟨_, _, _, hp4, hp5⟩ := hp'
          dsimp only [ctxOf]
          exact ⟨hp4, hp5, by omega, by intro b c' he; cases he⟩
        | raised c2 =>
          have hp := hasConflictsM_pres env false c1
          rw [hq] at hp
          simp only [ctxOf] at hp
          have hp' := ledPres_trans hled1 hp
          have hps := hp'.sumOf_eq
          obtain ⟨_, _, _, hp4, hp5⟩ := hp'
          dsimp only [ctxOf]
          exact ⟨hp4, hp5, by omega, by intro b c' he; cases he⟩
        | fuelOut c2 =>
          have hp := hasConflictsM_pres env false c1
          rw [hq] at hp
          simp only [ctxOf] at hp
          have hp' := ledPres_trans hled1 hp
          have hps := hp'.sumOf_eq
          obtain ⟨_, _, _, hp4, hp5⟩ := hp'
          dsimp only [ctxOf]
          exact ⟨hp4, hp5, by omega, by intro b c' he; cases he⟩
      · have hcf := conflictOrFail_ledger env false fuel c1
        obtain ⟨g1, g2, g3, g4⟩ := hcf
        have hs1 : sumOf c1 = sumOf c := hled1.sumOf_eq
        obtain ⟨_, _, _, h4, h5⟩ := hled1
        refine ⟨g1.trans h4, g2.trans h5, by omega, ?_⟩
        intro b c' he
        have := g4 b c' he
        omega

theorem tick_pres (c : Ctx) : ledPres c (tick c) := ⟨rfl, rfl, rfl, rfl, rfl⟩

theorem runCommits_ledger (env : Env) (dryRun : Bool) (fuel : Nat) :
    ∀ (l : List String) (c : Ctx),
    (ctxOf (runCommits env dryRun fuel l c)).total = c.total ∧
    sumOf (ctxOf (runCommits env dryRun fuel l c)) ≤ sumOf c + l.length ∧
    (∀ c', runCommits env dryRun fuel l c = .ok () c' → c'.abandoned = false →
      sumOf c' = sumOf c + l.length) := by
  intro l
  induction l with
  | nil =>
    intro c
    refine ⟨rfl, by simp [runCommits, ctxOf], ?_⟩
    intro c' he _
    cases he
    simp [runCommits]
  | cons h rest ih =>
    intro c
    unfold runCommits
    dsimp only
    by_cases hq : (env.opInProg c.time).1 = true
    · rw [if_pos hq]
      cases hh : handleOngoingOperation env dryRun fuel (tick c) with
      | ok b c2 =>
        have hp := handleOngoingOperation_pres env dryRun fuel (tick c)
        rw [hh] at hp
        simp only [ctxOf] at hp
        have hp' := ledPres_trans (tick_pres c) hp
        have hps := hp'.sumOf_eq
        obtain ⟨_, _, _, hp4, hp5⟩ := hp'
        cases b with
        | true =>
          try dsimp only
          cases hc : cherryPickCommit env dryRun fuel h c2 with
          | ok b2 c3 =>
            have hg := cherryPickCommit_ledger env dryRun fuel h c2
            obtain ⟨hg1, hg2, hg3, hg4⟩ := hg
            rw [hc] at hg1 hg2 hg3
            simp only [ctxOf] at hg1 hg2 hg3
            have hs3 := hg4 b2 c3 hc
            obtain ⟨hi1, hi2, hi3⟩ := ih c3
            refine ⟨by rw [hi1, hg1, hp4], by simp only [List.length_cons]; omega, ?_⟩
            intro c' he ha
            have := hi3 c' he ha
            simp only [List.length_cons]
            omega
          | exited n c3 =>
            have hg := cherryPickCommit_ledger env dryRun fuel h c2
            obtain ⟨hg1, hg2, hg3, _⟩ := hg
            rw [hc] at hg1 hg2 hg3
            simp only [ctxOf] at hg1 hg2 hg3
            try dsimp only [ctxOf]
            refine ⟨by rw [hg1, hp4], by simp only [List.length_cons]; omega, ?_⟩
            intro c' he
            cases he
          | raised c3 =>
            have hg := cherryPickCommit_ledger env dryRun fuel h c2
            obtain ⟨hg1, hg2, hg3, _⟩ := hg
            rw [hc] at hg1 hg2 hg3
            simp only [ctxOf] at hg1 hg2 hg3
            try dsimp only [ctxOf]
            refine ⟨by rw [hg1, hp4], by simp only [List.length_cons]; omega, ?_⟩
            intro c' he
            cases he
          | fuelOut c3 =>
            have hg := cherryPickCommit_ledger env dryRun fuel h c2
            obtain ⟨hg1, hg2, hg3, _⟩ := hg
            rw [hc] at hg1 hg2 hg3
            simp only [ctxOf] at hg1 hg2 hg3
            try dsimp only [ctxOf]
            refine ⟨by rw [hg1, hp4], by simp only [List.length_cons]; omega, ?_⟩
            intro c' he
            cases he
        | false =>
          try dsimp only [ctxOf]
          refine ⟨by simpa using hp4, by simp only [List.length_cons, sumOf] at *; omega, ?_⟩
          intro c' he ha
          cases he
          simp at ha
      | exited n c2 =>
        have hp := handleOngoingOperation_pres env dryRun fuel (tick c)
        rw [hh] at hp
        simp only [ctxOf] at hp
        have hp' := ledPres_trans (tick_pres c) hp
        have hps := hp'.sumOf_eq
        obtain ⟨_, _, _, hp4, hp5⟩ := hp'
        try dsimp only [ctxOf]
        refine ⟨hp4, by simp only [List.length_cons]; omega, ?_⟩
        intro c' he
        cases he
      | raised c2 =>
        have hp := handleOngoingOperation_pres env dryRun fuel (tick c)
        rw [hh] at hp
        simp only [ctxOf] at hp
        have hp' := ledPres_trans (tick_pres c) hp
        have hps := hp'.sumOf_eq
        obtain ⟨_, _, _, hp4, hp5⟩ := hp'
        try dsimp only [ctxOf]
        refine ⟨hp4, by simp only [List.length_cons]; omega, ?_⟩
        intro c' he
        cases he
      | fuelOut c2 =>
        have hp := handleOngoingOperation_pres env dryRun fuel (tick c)
        rw [hh] at hp
        simp only [ctxOf] at hp
        have hp' := ledPres_trans (tick_pres c) hp
        have hps := hp'.sumOf_eq
        obtain ⟨_, _, _, hp4, hp5⟩ := hp'
        try dsimp only [ctxOf]
        refine ⟨hp4, by simp only [List.length_cons]; omega, ?_⟩
        intro c' he
        cases he
    · rw [if_neg hq]
      try dsimp only
      cases hc : cherryPickCommit env dryRun fuel h (tick c) with
      | ok b2 c3 =>
        have hg := cherryPickCommit_ledger env dryRun fuel h (tick c)
        obtain ⟨hg1, hg2, hg3, hg4⟩ := hg
        rw [hc] at hg1 hg2 hg3
        simp only [ctxOf] at hg1 hg2 hg3
        have hs3 := hg4 b2 c3 hc
        have hst : sumOf (tick c) = sumOf c := (tick_pres c).sumOf_eq
        obtain ⟨hi1, hi2, hi3⟩ := ih c3
        refine ⟨by rw [hi1, hg1]; rfl, by simp only [List.length_cons]; omega, ?_⟩
        intro c' he ha
        have := hi3 c' he ha
        simp only [List.length_cons]
        omega
      | exited n c3 =>
        have hg := cherryPickCommit_ledger env dryRun fuel h (tick c)
        obtain ⟨hg1, hg2, hg3, _⟩ := hg
        rw [hc] at hg1 hg2 hg3
        simp only [ctxOf] at hg1 hg2 hg3
        have hst : sumOf (tick c) = sumOf c := (tick_pres c).sumOf_eq
        try dsimp only [ctxOf]
        refine ⟨hg1, by simp only [List.length_cons]; omega, ?_⟩
        intro c' he
        cases he
      | raised c3 =>
        have hg := cherryPickCommit_ledger env dryRun fuel h (tick c)
        obtain ⟨hg1, hg2, hg3, _⟩ := hg
        rw [hc] at hg1 hg2 hg3
        simp only [ctxOf] at hg1 hg2 hg3
        have hst : sumOf (tick c) = sumOf c := (tick_pres c).sumOf_eq
        try dsimp only [ctxOf]
        refine ⟨hg1, by simp only [List.length_cons]; omega, ?_⟩
        intro c' he
        cases he
      | fuelOut c3 =>
        have hg := cherryPickCommit_ledger env dryRun fuel h (tick c)
        obtain ⟨hg1, hg2, hg3, _⟩ := hg
        rw [hc] at hg1 hg2 hg3
        simp only [ctxOf] at hg1 hg2 hg3
        have hst : sumOf (tick c) = sumOf c := (tick_pres c).sumOf_eq
        try dsimp only [ctxOf]
        refine ⟨hg1, by simp only [List.length_cons]; omega, ?_⟩
        intro c' he
        cases he

theorem ctx_eq_of (a b : Ctx) (h1 : a.time = b.time) (h2 : a.successful = b.successful)
    (h3 : a.skipped = b.skipped) (h4 : a.failed = b.failed) (h5 : a.total = b.total)
    (h6 : a.trace = b.trace) (h7 : a.summaryPrinted = b.summaryPrinted)
    (h8 : a.abandoned = b.abandoned) : a = b := by
  cases a
  cases b
  simp_all

/-! ### The summary flag is only ever set by `run` itself -/

theorem hasConflictsM_sp (env : Env) (dryRun : Bool) (c : Ctx) :
    (ctxOf (hasConflictsM env dryRun c)).summaryPrinted = c.summaryPrinted := by
  unfold hasConflictsM
  cases dryRun with
  | true => simp [ctxOf]
  | false =>
    simp only [Bool.false_eq_true, if_false]
    cases env.conflicts c.time <;> simp [ctxOf, tick]

theorem userLoop_sp (env : Env) :
    ∀ fuel (c : Ctx), (ctxOf (userLoop env fuel c)).summaryPrinted = c.summaryPrinted := by
  intro fuel
  induction fuel with
  | zero => intro c; rfl
  | succ n ih =>
    intro c
    unfold userLoop
    dsimp only
    split
    · rfl
    · split
      · rfl
      · split
        · rfl
        · rw [ih (tick c)]; rfl

theorem ongoingLoop_sp (env : Env) (dryRun : Bool) :
    ∀ fuel (c : Ctx),
      (ctxOf (ongoingLoop env dryRun fuel c)).summaryPrinted = c.summaryPrinted := by
  intro fuel
  induction fuel with
  | zero => intro c; rfl
  | succ n ih =>
    intro c
    unfold ongoingLoop
    dsimp only
    split
    · cases hq : hasConflictsM env dryRun (tick c) with
      | ok confl c2 =>
        have hs := hasConflictsM_sp env dryRun (tick c)
        rw [hq] at hs
        simp only [ctxOf] at hs
        dsimp only
        split
        · rw [ih c2, hs]; rfl
        · simpa [ctxOf] using hs
      | exited n2 c2 =>
        have hs := hasConflictsM_sp env dryRun (tick c)
        rw [hq] at hs
        simpa [ctxOf] using hs
      | raised c2 =>
        have hs := hasConflictsM_sp env dryRun (tick c)
        rw [hq] at hs
        simpa [ctxOf] using hs
      | fuelOut c2 =>
        have hs := hasConflictsM_sp env dryRun (tick c)
        rw [hq] at hs
        simpa [ctxOf] using hs
    · split
      · rfl
      · rw [ih (tick c)]; rfl

theorem handleOngoingOperation_sp (env : Env) (dryRun : Bool) (fuel : Nat) (c : Ctx) :
    (ctxOf (handleOngoingOperation env dryRun fuel c)).summaryPrinted =
      c.summaryPrinted := by
  unfold handleOngoingOperation
  cases hq : hasConflictsM env dryRun c with
  | ok b c2 =>
    have hs := hasConflictsM_sp env dryRun c
    rw [hq] at hs
    simp only [ctxOf] at hs
    rw [ongoingLoop_sp env dryRun fuel c2, hs]
  | exited n c2 =>
    have hs := hasConflictsM_sp env dryRun c
    rw [hq] at hs
    simpa [ctxOf] using hs
  | raised c2 =>
    have hs := hasConflictsM_sp env dryRun c
    rw [hq] at hs
    simpa [ctxOf] using hs
  | fuelOut c2 =>
    have hs := hasConflictsM_sp env dryRun c
    rw [hq] at hs
    simpa [ctxOf] using hs

theorem conflictOrFail_sp (env : Env) (dryRun : Bool) (fuel : Nat) (c : Ctx) :
    (ctxOf (conflictOrFail env dryRun fuel c)).summaryPrinted = c.summaryPrinted := by
  unfold conflictOrFail
  cases hq : hasConflictsM env dryRun c with
  | ok confl c2 =>
    have hs := hasConflictsM_sp env dryRun c
    rw [hq] at hs
    simp only [ctxOf] at hs
    cases confl with
    | true =>
      simp only [if_true]
      cases hu : userLoop env fuel c2 with
      | ok a c3 =>
        have hu' := userLoop_sp env fuel c2
        rw [hu] at hu'
        simp only [ctxOf] at hu'
        cases a <;> simp [ctxOf, incSucc, incSkip, push, tick, hu', hs]
      | exited n c3 =>
        have hu' := userLoop_sp env fuel c2
        rw [hu] at hu'
        simp only [ctxOf] at hu'
        simp [ctxOf, hu', hs]
      | raised c3 =>
        have hu' := userLoop_sp env fuel c2
        rw [hu] at hu'
        simp only [ctxOf] at hu'
        simp [ctxOf, hu', hs]
      | fuelOut c3 =>
        have hu' := userLoop_sp env fuel c2
        rw [hu] at hu'
        simp only [ctxOf] at hu'
        simp [ctxOf, hu', hs]
    | false =>
      simp [ctxOf, incFail, hs]
  | exited n c2 =>
    have hs := hasConflictsM_sp env dryRun c
    rw [hq] at hs
    simpa [ctxOf] using hs
  | raised c2 =>
    have hs := hasConflictsM_sp env dryRun c
    rw [hq] at hs
    simpa [ctxOf] using hs
  | fuelOut c2 =>
    have hs := hasConflictsM_sp env dryRun c
    rw [hq] at hs
    simpa [ctxOf] using hs

theorem cherryPickCommit_sp (env : Env) (dryRun : Bool) (fuel : Nat) (h : String)
    (c : Ctx) :
    (ctxOf (cherryPickCommit env dryRun fuel h c)).summaryPrinted =
      c.summaryPrinted := by
  unfold cherryPickCommit
  cases dryRun with
  | true => simp [ctxOf, incSucc]
  | false =>
    simp only [Bool.false_eq_true, if_false]
    split
    · simp [ctxOf, incSucc, push, tick]
    · split
      · cases hq : hasConflictsM env false (tick (push (tick c) (Call.gitCherryPick h))) with
        | ok confl c2 =>
          have hs := hasConflictsM_sp env false (tick (push (tick c) (Call.gitCherryPick h)))
          rw [hq] at hs
          simp only [ctxOf, tick, push] at hs
          cases confl with
          | true =>
            simp only [if_true]
            rw [conflictOrFail_sp env false fuel c2, hs]
          | false =>
            simp only [Bool.false_eq_true, if_false]
            split <;> simp [ctxOf, incSucc, incFail, push, tick, hs]
        | exited n c2 =>
          have hs := hasConflictsM_sp env false (tick (push (tick c) (Call.gitCherryPick h)))
          rw [hq] at hs
          simpa [ctxOf, tick, push] using hs
        | raised c2 =>
          have hs := hasConflictsM_sp env false (tick (push (tick c) (Call.gitCherryPick h)))
          rw [hq] at hs
          simpa [ctxOf, tick, push] using hs
        | fuelOut c2 =>
          have hs := hasConflictsM_sp env false (tick (push (tick c) (Call.gitCherryPick h)))
          rw [hq] at hs
          simpa [ctxOf, tick, push] using hs
      · rw [conflictOrFail_sp env false fuel (tick (push (tick c) (Call.gitCherryPick h)))]
        rfl

theorem runCommits_sp (env : Env) (dryRun : Bool) (fuel : Nat) :
    ∀ (l : List String) (c : Ctx),
      (ctxOf (runCommits env dryRun fuel l c)).summaryPrinted = c.summaryPrinted := by
  intro l
  induction l with
  | nil => intro c; rfl
  | cons h rest ih =>
    intro c
    unfold runCommits
    dsimp only
    by_cases hq : (env.opInProg c.time).1 = true
    · rw [if_pos hq]
      cases hh : handleOngoingOperation env dryRun fuel (tick c) with
      | ok b c2 =>
        have hs := handleOngoingOperation_sp env dryRun fuel (tick c)
        rw [hh] at hs
        simp only [ctxOf, tick] at hs
        cases b with
        | true =>
          try dsimp only
          cases hc : cherryPickCommit env dryRun fuel h c2 with
          | ok b2 c3 =>
            have hcs := cherryPickCommit_sp env dryRun fuel h c2
            rw [hc] at hcs
            simp only [ctxOf] at hcs
            try dsimp only
            rw [ih c3, hcs, hs]
          | exited n c3 =>
            have hcs := cherryPickCommit_sp env dryRun fuel h c2
            rw [hc] at hcs
            simp only [ctxOf] at hcs
            simp [ctxOf, hcs, hs]
          | raised c3 =>
            have hcs := cherryPickCommit_sp env dryRun fuel h c2
            rw [hc] at hcs
            simp only [ctxOf] at hcs
            simp [ctxOf, hcs, hs]
          | fuelOut c3 =>
            have hcs := cherryPickCommit_sp env dryRun fuel h c2
            rw [hc] at hcs
            simp only [ctxOf] at hcs
            simp [ctxOf, hcs, hs]
        | false => simpa [ctxOf] using hs
      | exited n c2 =>
        have hs := handleOngoingOperation_sp env dryRun fuel (tick c)
        rw [hh] at hs
        simpa [ctxOf, tick] using hs
      | raised c2 =>
        have hs := handleOngoingOperation_sp env dryRun fuel (tick c)
        rw [hh] at hs
        simpa [ctxOf, tick] using hs
      | fuelOut c2 =>
        have hs := handleOngoingOperation_sp env dryRun fuel (tick c)
        rw [hh] at hs
        simpa [ctxOf, tick] using hs
    · rw [if_neg hq]
      dsimp only
      cases hc : cherryPickCommit env dryRun fuel h (tick c) with
      | ok b2 c3 =>
        have hcs := cherryPickCommit_sp env dryRun fuel h (tick c)
        rw [hc] at hcs
        simp only [ctxOf, tick] at hcs
        try dsimp only
        rw [ih c3, hcs]
      | exited n c3 =>
        have hcs := cherryPickCommit_sp env dryRun fuel h (tick c)
        rw [hc] at hcs
        simpa [ctxOf, tick] using hcs
      | raised c3 =>
        have hcs := cherryPickCommit_sp env dryRun fuel h (tick c)
        rw [hc] at hcs
        simpa [ctxOf, tick] using hcs
      | fuelOut c3 =>
        have hcs := cherryPickCommit_sp env dryRun fuel h (tick c)
        rw [hc] at hcs
        simpa [ctxOf, tick] using hcs

/-! ### Which exit codes each piece can produce -/

theorem hasConflictsM_no_exit (env : Env) (dryRun : Bool) (c : Ctx) :
    ∀ n c', hasConflictsM env dryRun c ≠ .exited n c' := by
  intro n c'
  unfold hasConflictsM
  cases dryRun with
  | true => simp
  | false =>
    simp only [Bool.false_eq_true, if_false]
    cases env.conflicts c.time <;> simp

theorem userLoop_no_exit (env : Env) :
    ∀ fuel (c : Ctx) n c', userLoop env fuel c ≠ .exited n c' := by
  intro fuel
  induction fuel with
  | zero => intro c n c'; simp [userLoop]
  | succ m ih =>
    intro c n c'
    unfold userLoop
    dsimp only
    split
    · simp
    · split
      · simp
      · split
        · simp
        · exact ih (tick c) n c'

theorem ongoingLoop_no_exit (env : Env) (dryRun : Bool) :
    ∀ fuel (c : Ctx) n c', ongoingLoop env dryRun fuel c ≠ .exited n c' := by
  intro fuel
  induction fuel with
  | zero => intro c n c'; simp [ongoingLoop]
  | succ m ih =>
    intro c n c'
    unfold ongoingLoop
    dsimp only
    split
    · cases hq : hasConflictsM env dryRun (tick c) with
      | ok confl c2 =>
        dsimp only
        split
        · exact ih c2 n c'
        · simp
      | exited n2 c2 => exact absurd hq (hasConflictsM_no_exit env dryRun (tick c) n2 c2)
      | raised c2 => simp
      | fuelOut c2 => simp
    · split
      · simp
      · exact ih (tick c) n c'

theorem handleOngoingOperation_no_exit (env : Env) (dryRun : Bool) (fuel : Nat)
    (c : Ctx) : ∀ n c', handleOngoingOperation env dryRun fuel c ≠ .exited n c' := by
  intro n c'
  unfold handleOngoingOperation
  cases hq : hasConflictsM env dryRun c with
  | ok b c2 => exact ongoingLoop_no_exit env dryRun fuel c2 n c'
  | exited n2 c2 => exact absurd hq (hasConflictsM_no_exit env dryRun c n2 c2)
  | raised c2 => simp
  | fuelOut c2 => simp

theorem conflictOrFail_exit_zero (env : Env) (dryRun : Bool) (fuel : Nat) (c : Ctx) :
    ∀ n c', conflictOrFail env dryRun fuel c = .exited n c' → n = 0 := by
  intro n c'
  unfold conflictOrFail
  cases hq : hasConflictsM env dryRun c with
  | ok confl c2 =>
    dsimp only
    split
    · cases hu : userLoop env fuel c2 with
      | ok a c3 =>
        cases a with
        | contin => simp
        | skip => simp
        | quit =>
          intro he
          injection he with he1 he2
          omega
      | exited n2 c3 => exact absurd hu (userLoop_no_exit env fuel c2 n2 c3)
      | raised c3 => simp
      | fuelOut c3 => simp
    · simp
  | exited n2 c2 => exact absurd hq (hasConflictsM_no_exit env dryRun c n2 c2)
  | raised c2 => simp
  | fuelOut c2 => simp

theorem cherryPickCommit_exit_zero (env : Env) (dryRun : Bool) (fuel : Nat)
    (h : String) (c : Ctx) :
    ∀ n c', cherryPickCommit env dryRun fuel h c = .exited n c' → n = 0 := by
  intro n c'
  unfold cherryPickCommit
  cases dryRun with
  | true => simp
  | false =>
    simp only [Bool.false_eq_true, if_false]
    split
    · simp
    · split
      · cases hq : hasConflictsM env false
            (tick (push (tick c) (Call.gitCherryPick h))) with
        | ok confl c2 =>
          dsimp only
          split
          · exact conflictOrFail_exit_zero env false fuel c2 n c'
          · split <;> simp
        | exited n2 c2 =>
          exact absurd hq (hasConflictsM_no_exit env false _ n2 c2)
        | raised c2 => simp
        | fuelOut c2 => simp
      · exact conflictOrFail_exit_zero env false fuel _ n c'

theorem runCommits_exit_zero (env : Env) (dryRun : Bool) (fuel : Nat) :
    ∀ (l : List String) (c : Ctx) n c',
      runCommits env dryRun fuel l c = .exited n c' → n = 0 := by
  intro l
  induction l with
  | nil => intro c n c'; simp [runCommits]
  | cons h rest ih =>
    intro c n c'
    unfold runCommits
    dsimp only
    by_cases hq : (env.opInProg c.time).1 = true
    · rw [if_pos hq]
      cases hh : handleOngoingOperation env dryRun fuel (tick c) with
      | ok b c2 =>
        cases b with
        | true =>
          try dsimp only
          cases hc : cherryPickCommit env dryRun fuel h c2 with
          | ok b2 c3 =>
            try dsimp only
            exact ih c3 n c'
          | exited n2 c3 =>
            intro he
            injection he with he1 he2
            subst he1
            exact cherryPickCommit_exit_zero env dryRun fuel h c2 n2 c3 hc
          | raised c3 => simp
          | fuelOut c3 => simp
        | false => simp
      | exited n2 c2 =>
        exact absurd hh (handleOngoingOperation_no_exit env dryRun fuel (tick c) n2 c2)
      | raised c2 => simp
      | fuelOut c2 => simp
    · rw [if_neg hq]
      dsimp only
      cases hc : cherryPickCommit env dryRun fuel h (tick c) with
      | ok b2 c3 =>
        try dsimp only
        exact ih c3 n c'
      | exited n2 c3 =>
        intro he
        injection he with he1 he2
        subst he1
        exact cherryPickCommit_exit_zero env dryRun fuel h (tick c) n2 c3 hc
      | raised c3 => simp
      | fuelOut c3 => simp

theorem runPicker_exit_01 (env : Env) (dryRun : Bool) (fuel : Nat)
    (fileContent : Option (List Char)) (startFrom : Option String) (c : Ctx) :
    ∀ n c', runPicker env dryRun fuel fileContent startFrom c = .exited n c' →
      n = 0 ∨ n = 1 := by
  intro n c'
  unfold runPicker
  dsimp only
  by_cases hq : (env.opInProg c.time).1 = true
  · rw [if_pos hq]
    cases hh : handleOngoingOperation env dryRun fuel (tick c) with
    | ok b c2 =>
      cases b with
      | true =>
        try dsimp only
        cases fileContent with
        | none =>
          intro he
          injection he with he1 he2
          omega
        | some content =>
          try dsimp only
          cases hp : parse_commits_file content startFrom with
          | error e =>
            intro he
            injection he with he1 he2
            omega
          | ok commits =>
            try dsimp only
            cases hr : runCommits env dryRun fuel commits
                { c2 with total := commits.length } with
            | ok u c3 => cases u; simp
            | exited n2 c3 =>
              intro he
              injection he with he1 he2
              subst he1
              exact Or.inl (runCommits_exit_zero env dryRun fuel commits _ n2 c3 hr)
            | raised c3 => simp
            | fuelOut c3 => simp
      | false => simp
    | exited n2 c2 =>
      exact absurd hh (handleOngoingOperation_no_exit env dryRun fuel (tick c) n2 c2)
    | raised c2 => simp
    | fuelOut c2 => simp
  · rw [if_neg hq]
    dsimp only
    cases fileContent with
    | none =>
          intro he
          injection he with he1 he2
          omega
    | some content =>
      try dsimp only
      cases hp : parse_commits_file content startFrom with
      | error e =>
            intro he
            injection he with he1 he2
            omega
      | ok commits =>
        try dsimp only
        cases hr : runCommits env dryRun fuel commits
            { tick c with total := commits.length } with
        | ok u c3 => cases u; simp
        | exited n2 c3 =>
          intro he
          injection he with he1 he2
          subst he1
          exact Or.inl (runCommits_exit_zero env dryRun fuel commits _ n2 c3 hr)
        | raised c3 => simp
        | fuelOut c3 => simp

/-! ### `sys.exit` and uncaught exceptions propagate past the remaining queue -/

theorem runCommits_prop_exited (env : Env) (dryRun : Bool) (fuel : Nat)
    (h : String) (rest : List String) (c c₁ : Ctx) (n : Nat)
    (hq : (env.opInProg c.time).1 = false)
    (hx : cherryPickCommit env dryRun fuel h (tick c) = .exited n c₁) :
    runCommits env dryRun fuel (h :: rest) c = .exited n c₁ := by
  unfold runCommits
  dsimp only
  rw [if_neg (by simp [hq])]
  dsimp only
  rw [hx]

theorem runCommits_prop_raised (env : Env) (dryRun : Bool) (fuel : Nat)
    (h : String) (rest : List String) (c c₁ : Ctx)
    (hq : (env.opInProg c.time).1 = false)
    (hx : cherryPickCommit env dryRun fuel h (tick c) = .raised c₁) :
    runCommits env dryRun fuel (h :: rest) c = .raised c₁ := by
  unfold runCommits
  dsimp only
  rw [if_neg (by simp [hq])]
  dsimp only
  rw [hx]

/-- An `.exited` result of `run` keeps the summary flag of the starting
context: `print_summary` is not reached on any `sys.exit` path. -/
theorem runPicker_exited_sp (env : Env) (dryRun : Bool) (fuel : Nat)
    (fileContent : Option (List Char)) (startFrom : Option String) (c : Ctx) :
    ∀ n c', runPicker env dryRun fuel fileContent startFrom c = .exited n c' →
      c'.summaryPrinted = c.summaryPrinted := by
  intro n c'
  unfold runPicker
  dsimp only
  by_cases hq : (env.opInProg c.time).1 = true
  · rw [if_pos hq]
    cases hh : handleOngoingOperation env dryRun fuel (tick c) with
    | ok b c2 =>
      have hs := handleOngoingOperation_sp env dryRun fuel (tick c)
      rw [hh] at hs
      simp only [ctxOf, tick] at hs
      cases b with
      | true =>
        try dsimp only
        cases fileContent with
        | none => intro he; injection he with he1 he2; subst he2; exact hs
        | some content =>
          try dsimp only
          cases hp : parse_commits_file content startFrom with
          | error e => intro he; injection he with he1 he2; subst he2; exact hs
          | ok commits =>
            try dsimp only
            cases hr : runCommits env dryRun fuel commits
                { c2 with total := commits.length } with
            | ok u c3 => cases u; simp
            | exited n2 c3 =>
              intro he
              injection he with he1 he2
              subst he2
              have hrs := runCommits_sp env dryRun fuel commits
                { c2 with total := commits.length }
              rw [hr] at hrs
              simp only [ctxOf] at hrs
              rw [hrs]
              exact hs
            | raised c3 => simp
            | fuelOut c3 => simp
      | false => simp
    | exited n2 c2 =>
      exact absurd hh (handleOngoingOperation_no_exit env dryRun fuel (tick c) n2 c2)
    | raised c2 => simp
    | fuelOut c2 => simp
  · rw [if_neg hq]
    dsimp only
    cases fileContent with
    | none => intro he; injection he with he1 he2; subst he2; rfl
    | some content =>
      try dsimp only
      cases hp : parse_commits_file content startFrom with
      | error e => intro he; injection he with he1 he2; subst he2; rfl
      | ok commits =>
        try dsimp only
        cases hr : runCommits env dryRun fuel commits
            { tick c with total := commits.length } with
        | ok u c3 => cases u; simp
        | exited n2 c3 =>
          intro he
          injection he with he1 he2
          subst he2
          have hrs := runCommits_sp env dryRun fuel commits
            { tick c with total := commits.length }
          rw [hr] at hrs
          simp only [ctxOf] at hrs
          rw [hrs]
          rfl
        | raised c3 => simp
        | fuelOut c3 => simp

/-- Claim C9: for every commit queue, if every `git cherry-pick` reports
success (so no conflict or failure is ever reported and no operation is ever
left open), the commit loop ends normally with `successful` increased by the
queue length, `skipped` and `failed` unchanged, and the mutation trace
extended by exactly one `git cherry-pick <hash>` per commit in queue
order. -/
theorem c9_clean_run (env : Env) (fuel : Nat)
    (hp : ∀ t h, env.pickRet t h = 0) (hop : ∀ t, env.opInProg t = (false, "")) :
    ∀ (l : List String) (c : Ctx),
    runCommits env false fuel l c =
      .ok () { c with time := c.time + 2 * l.length,
                      successful := c.successful + l.length,
                      trace := c.trace ++ l.map Call.gitCherryPick } := by
  intro l
  induction l with
  | nil =>
    intro c
    simp [runCommits]
  | cons h rest ih =>
    intro c
    unfold runCommits
    dsimp only
    rw [hop c.time]
    simp only [Bool.false_eq_true, if_false]
    have hcp : cherryPickCommit env false fuel h (tick c) =
        .ok true (incSucc (push (tick (tick c)) (Call.gitCherryPick h))) := by
      unfold cherryPickCommit
      simp only [Bool.false_eq_true, if_false]
      rw [hp (tick c).time h]
      simp [tick, push]
    rw [hcp]
    dsimp only
    rw [ih]
    congr 1
    apply ctx_eq_of <;> simp [incSucc, push, tick] <;> try omega

/-! ### `parse_commits_file` without an "oldest first" section -/

/-- The header test of the parse loop: does the (stripped, lowercased) line
contain the substring "oldest first"? -/
def lineMentionsOldest (raw : List Char) : Bool :=
  containsSub "oldest first".data (lowerLine (trimCh raw))

theorem parseLine_inv (st : ParseState) (raw : List Char)
    (h : lineMentionsOldest raw = false)
    (ho : st.inOldest = false) (hl : st.commits.length ≤ 1) :
    (parseLine st raw).inOldest = false ∧ (parseLine st raw).commits.length ≤ 1 := by
  unfold parseLine
  dsimp only
  unfold lineMentionsOldest at h
  split
  · exact ⟨ho, hl⟩
  · rw [if_neg (by simp [h])]
    split
    · exact ⟨rfl, hl⟩
    · split
      · exact ⟨ho, hl⟩
      · rw [if_neg (by simp [ho])]
        split
        · split
          · simp_all
          · exact ⟨ho, hl⟩
        · exact ⟨ho, hl⟩

theorem parse_foldl_inv :
    ∀ (lines : List (List Char)) (st : ParseState),
    (∀ raw ∈ lines, lineMentionsOldest raw = false) →
    st.inOldest = false → st.commits.length ≤ 1 →
    (lines.foldl parseLine st).commits.length ≤ 1 := by
  intro lines
  induction lines with
  | nil => intro st _ _ hl; simpa using hl
  | cons raw rest ih =>
    intro st hall ho hl
    have h1 := hall raw (by simp)
    obtain ⟨p1, p2⟩ := parseLine_inv st raw h1 ho hl
    simpa using ih (parseLine st raw) (fun r hr => hall r (by simp [hr])) p1 p2

/-! ### `has_conflicts` against git's documented porcelain pairs -/

/-- The seven index/worktree pairs the porcelain short format reports for an
unmerged (conflicted) path: DD, AU, UD, UA, DU, AA, UU. -/
def unmergedPairs : List (Char × Char) :=
  [('U', 'U'), ('A', 'A'), ('D', 'D'), ('A', 'U'), ('U', 'A'), ('U', 'D'), ('D', 'U')]

/-- Characters the porcelain short format uses outside unmerged states. -/
def ordinaryChars : List Char := [' ', 'M', 'T', 'A', 'D', 'R', 'C']

/-- Status pairs a real `git status --porcelain` line can start with:
ordinary tracked-file pairs (never containing `U`, and never `AA`/`DD`, which
only occur unmerged), the unmerged pairs, untracked `??` and ignored `!!`. -/
def validPairs : List (Char × Char) :=
  ((ordinaryChars.flatMap fun a => ordinaryChars.map fun b => (a, b)).filter
    fun p => !(p == ('A', 'A')) && !(p == ('D', 'D'))) ++
  unmergedPairs ++ [('?', '?'), ('!', '!')]

/-- A status line is well formed when its first two characters form a valid
porcelain pair (shorter lines are vacuously fine). -/
def lineValidB (line : List Char) : Bool :=
  match line with
  | c0 :: c1 :: _ => decide ((c0, c1) ∈ validPairs)
  | _ => true

theorem pair_key : ∀ p ∈ validPairs,
    ((p.1 == 'U' || p.2 == 'U' || (p.1 == 'A' && p.2 == 'A') ||
      (p.1 == 'D' && p.2 == 'D')) = true ↔ p ∈ unmergedPairs) := by decide

theorem unmerged_sub_valid : ∀ p ∈ unmergedPairs, p ∈ validPairs := by decide

/-! ## Claim theorems -/

/-- Claim C8: for every working-tree status whose lines start with valid
porcelain pairs, `has_conflicts` returns true iff some status entry's
index/worktree pair is one of the unmerged states UU, AA, DD, AU, UA, UD,
DU — regardless of which operation is active (the function never consults
the operation kind). -/
theorem c8_has_conflicts_iff_unmerged (stdout : List Char)
    (hv : ∀ line ∈ splitLines (trimCh stdout), lineValidB line = true) :
    has_conflicts stdout = true ↔
      ∃ line ∈ splitLines (trimCh stdout), ∃ c0 c1 rest,
        line = c0 :: c1 :: rest ∧ (c0, c1) ∈ unmergedPairs := by
  unfold has_conflicts
  rw [List.any_eq_true]
  constructor
  · rintro ⟨line, hmem, hconf⟩
    refine ⟨line, hmem, ?_⟩
    have hvl := hv line hmem
    cases line with
    | nil => simp [lineIsConflict] at hconf
    | cons c0 t =>
      cases t with
      | nil => simp [lineIsConflict] at hconf
      | cons c1 r =>
        have hvp : (c0, c1) ∈ validPairs := by
          simpa [lineValidB] using hvl
        refine ⟨c0, c1, r, rfl, ?_⟩
        apply (pair_key (c0, c1) hvp).1
        simpa [lineIsConflict] using hconf
  · rintro ⟨line, hmem, c0, c1, r, rfl, hum⟩
    refine ⟨_, hmem, ?_⟩
    have := (pair_key (c0, c1) (unmerged_sub_valid _ hum)).2 hum
    simpa [lineIsConflict] using this

/-- Witness for C8 at a concrete two-line status with one UU entry. -/
theorem c8_witness :
    (∀ line ∈ splitLines (trimCh "UU src/main.py\nM  lib.py".data),
      lineValidB line = true) ∧
    has_conflicts "UU src/main.py\nM  lib.py".data = true :=
  ⟨by decide,
   (c8_has_conflicts_iff_unmerged "UU src/main.py\nM  lib.py".data (by decide)).2
     ⟨"UU src/main.py".data, by decide, 'U', 'U', " src/main.py".data,
      by decide, by decide⟩⟩

/-- Claim C10 (counterexample): a commits file with no "oldest first" header
in which the FIRST line that begins with a 7+ character hex hash is skipped
(it contains "newest first"), and the hash that is collected comes from the
SECOND hash line — refuting "only the first line beginning with a 7+
character hex hash is collected". -/
theorem c10_counterexample :
    parse_commits_file "abcdef1 newest first\nfedcba9 fix".data none =
      .ok ["fedcba9"] ∧
    (∀ raw ∈ splitLines "abcdef1 newest first\nfedcba9 fix".data,
      lineMentionsOldest raw = false) ∧
    hashMatch (trimCh "abcdef1 newest first".data) = some "abcdef1" ∧
    ("fedcba9" : String) ≠ "abcdef1" :=
  ⟨by rfl, by decide, by rfl, by decide⟩

/-- Claim C10 (amended): for every commits file containing no line that
mentions an "oldest first" header (case-insensitive), `parse_commits_file`
returns at most one commit — the `elif not commits` fallback only fires
while the accumulator is empty.  (The collected hash need not come from the
first hash-bearing line: lines containing "newest first" or starting with
"Detailed" are skipped before hash extraction.) -/
theorem c10_no_oldest_at_most_one (content : List Char) (startFrom : Option String)
    (l : List String)
    (h : ∀ raw ∈ splitLines content, lineMentionsOldest raw = false)
    (hok : parse_commits_file content startFrom = .ok l) :
    l.length ≤ 1 := by
  have hlen := parse_foldl_inv (splitLines content) ⟨false, []⟩ h rfl (by simp)
  unfold parse_commits_file at hok
  dsimp only at hok
  by_cases hemp : ((splitLines content).foldl parseLine ⟨false, []⟩).commits = []
  · rw [if_pos hemp] at hok
    cases hok
  · rw [if_neg hemp] at hok
    cases startFrom with
    | none =>
      injection hok with hok
      rw [← hok]
      exact hlen
    | some sf =>
      dsimp only at hok
      cases hfi : ((splitLines content).foldl parseLine ⟨false, []⟩).commits.findIdx?
          (· = sf) with
      | some i =>
        rw [hfi] at hok
        injection hok with hok
        rw [← hok]
        have := List.length_drop i
          ((splitLines content).foldl parseLine ⟨false, []⟩).commits
        omega
      | none =>
        rw [hfi] at hok
        injection hok with hok
        rw [← hok]
        exact hlen

/-- Witness for C10's amended claim on a concrete header-free two-line file. -/
theorem c10_witness :
    (∀ raw ∈ splitLines "abc1234 one\ndef5678 two".data,
      lineMentionsOldest raw = false) ∧
    (∀ l, parse_commits_file "abc1234 one\ndef5678 two".data none = .ok l →
      l.length ≤ 1) :=
  ⟨by decide, fun l hok =>
    c10_no_oldest_at_most_one "abc1234 one\ndef5678 two".data none l (by decide) hok⟩

/-- Claim C1 (counterexample): with `git cherry-pick` failing, no open
operation, conflicts present at every query and the human answering `y`,
`cherry_pick_commit` records the commit as successful with NO
`git cherry-pick --continue` in the trace — the environment still reports
conflicts at every later time, so no re-check rejected the choice. -/
theorem c1_counterexample :
    cherryPickCommit envConfl false 5 "abcdef1" Ctx.init =
      .ok true ⟨4, 1, 0, 0, 0, [.gitCherryPick "abcdef1"], false, false⟩ ∧
    envConfl.conflicts 4 = some true ∧
    Call.gitContinue ∉
      (ctxOf (cherryPickCommit envConfl false 5 "abcdef1" Ctx.init)).trace := by
  refine ⟨by decide, by decide, by decide⟩

/-- Claim C1 (amended): in the conflict decision loop, when the human
chooses `continue` (`y`), the code does NOT re-check `has_conflicts()` and
does NOT issue the continue mutation; it immediately records the commit as
successful and returns, trusting the instructions that told the human to run
`git cherry-pick --continue` themselves.  Exactly four external interactions
occur: the pick, the operation probe, one conflicts query before the prompt,
and the single prompt. -/
theorem c1_continue_without_recheck (env : Env) (fuel : Nat) (h : String) (c : Ctx)
    (h1 : env.pickRet c.time h ≠ 0)
    (h2 : env.opInProg (c.time + 1) = (false, ""))
    (h3 : env.conflicts (c.time + 2) = some true)
    (h4 : normalize (env.userInput (c.time + 3)) = "y") :
    cherryPickCommit env false (fuel + 1) h c =
      .ok true { c with time := c.time + 4, successful := c.successful + 1,
                        trace := c.trace ++ [.gitCherryPick h] } := by
  unfold cherryPickCommit
  simp only [Bool.false_eq_true, if_false]
  rw [if_neg h1]
  simp only [push, tick, Nat.add_assoc]
  norm_num
  rw [h2]
  simp only [Bool.false_and, Bool.false_eq_true, if_false]
  unfold conflictOrFail hasConflictsM
  simp only [Bool.false_eq_true, if_false]
  norm_num
  rw [h3]
  simp only [if_true]
  unfold userLoop
  simp only [tick, Nat.add_assoc]
  norm_num
  rw [h4]
  rw [if_pos rfl]
  dsimp only
  congr 1

/-- Witness for C1's amended claim at the concrete always-conflicted
environment. -/
theorem c1_witness :
    envConfl.pickRet 0 "abcdef1" ≠ 0 ∧
    cherryPickCommit envConfl false 5 "abcdef1" Ctx.init =
      .ok true { Ctx.init with time := Ctx.init.time + 4,
                               successful := Ctx.init.successful + 1,
                               trace := Ctx.init.trace ++ [.gitCherryPick "abcdef1"] } :=
  ⟨by decide,
   c1_continue_without_recheck envConfl 4 "abcdef1" Ctx.init (by decide) (by decide)
     (by decide) (by decide)⟩

/-- Claim C2 (counterexample): apply fails, an open cherry-pick remains with
no conflicts, and `git cherry-pick --continue` fails too: the commit is
recorded failed and control returns with trace `[cherry-pick, continue]` —
no `git cherry-pick --abort` is ever issued before advancing. -/
theorem c2_counterexample :
    cherryPickCommit envCont false 5 "abcdef1" Ctx.init =
      .ok false ⟨4, 0, 0, 1, 0, [.gitCherryPick "abcdef1", .gitContinue], false, false⟩ ∧
    Call.gitAbort ∉
      (ctxOf (cherryPickCommit envCont false 5 "abcdef1" Ctx.init)).trace := by
  refine ⟨by decide, by decide⟩

/-- Claim C2 (amended): in the ContinuingAfterConflict case, when the
"continue operation" mutation fails the commit is recorded `Failed` and
control returns immediately WITHOUT aborting the open operation — the only
mutations issued are the pick and the failed continue; the still-open
operation is instead picked up by the ongoing-operation check before the
next commit. -/
theorem c2_continue_failure_no_abort (env : Env) (fuel : Nat) (h : String) (c : Ctx)
    (h1 : env.pickRet c.time h ≠ 0)
    (h2 : env.opInProg (c.time + 1) = (true, "cherry-pick"))
    (h3 : env.conflicts (c.time + 2) = some false)
    (h4 : env.contRet (c.time + 3) ≠ 0) :
    cherryPickCommit env false fuel h c =
      .ok false { c with time := c.time + 4, failed := c.failed + 1,
                         trace := c.trace ++ [.gitCherryPick h, .gitContinue] } := by
  unfold cherryPickCommit
  simp only [Bool.false_eq_true, if_false]
  rw [if_neg h1]
  simp only [push, tick, Nat.add_assoc]
  norm_num
  rw [h2]
  simp only [Bool.true_and]
  norm_num
  unfold hasConflictsM
  simp only [Bool.false_eq_true, if_false]
  rw [h3]
  simp only [Bool.false_eq_true, if_false, tick, push, Nat.add_assoc]
  norm_num
  rw [if_neg h4]
  congr 1

/-- Witness for C2's amended claim at the concrete
failed-continue environment. -/
theorem c2_witness :
    envCont.contRet 3 ≠ 0 ∧
    cherryPickCommit envCont false 5 "abcdef1" Ctx.init =
      .ok false { Ctx.init with time := Ctx.init.time + 4,
                                failed := Ctx.init.failed + 1,
                                trace := Ctx.init.trace ++
                                  [.gitCherryPick "abcdef1", .gitContinue] } :=
  ⟨by decide,
   c2_continue_failure_no_abort envCont 5 "abcdef1" Ctx.init (by decide) (by decide)
     (by decide) (by decide)⟩

/-- Witness for C9 on a two-commit queue against the always-clean
environment. -/
theorem c9_witness :
    (∀ t h, envClean.pickRet t h = 0) ∧
    runCommits envClean false 3 ["abcdef1", "fedcba2"] Ctx.init =
      .ok () { Ctx.init with
                 time := Ctx.init.time + 2 * (["abcdef1", "fedcba2"] : List String).length,
                 successful := Ctx.init.successful +
                   (["abcdef1", "fedcba2"] : List String).length,
                 trace := Ctx.init.trace ++
                   (["abcdef1", "fedcba2"] : List String).map Call.gitCherryPick } :=
  ⟨fun _ _ => rfl,
   c9_clean_run envClean 3 (fun _ _ => rfl) (fun _ => rfl) ["abcdef1", "fedcba2"]
     Ctx.init⟩

/-- Claim C3 (counterexample): two commits are queued, the first conflicts
and the human answers `q`: the run is `sys.exit(0)` with only one
`git cherry-pick` in the trace (no further apply — that part of the claim
holds) but `print_summary` is never reached, refuting "a final summary is
produced". -/
theorem c3_counterexample :
    runPicker envQuit false 9 (some twoCommitFile) none Ctx.init =
      .exited 0 ⟨6, 0, 0, 0, 2, [.gitCherryPick "abcdef1"], false, false⟩ ∧
    (ctxOf (runPicker envQuit false 9 (some twoCommitFile) none Ctx.init)).summaryPrinted
      = false ∧
    (ctxOf (runPicker envQuit false 9 (some twoCommitFile) none Ctx.init)).trace =
      [.gitCherryPick "abcdef1"] :=
  ⟨by decide, by decide, by decide⟩

/-- Claim C3 (amended): if the human chooses `quit` at a conflict decision
point, the run stops immediately — the `sys.exit(0)` propagates past every
remaining queued commit with the context (hence the mutation trace and the
ledger) frozen at the quit, and the process exits with code 0 — but no final
summary is printed on this path (the summary flag of an exited run stays
false). -/
theorem c3_quit_stops_run (env : Env) (dryRun : Bool) (fuel : Nat) (h : String)
    (rest : List String) (c c₁ : Ctx)
    (hq : (env.opInProg c.time).1 = false)
    (hx : cherryPickCommit env dryRun fuel h (tick c) = .exited 0 c₁) :
    runCommits env dryRun fuel (h :: rest) c = .exited 0 c₁ ∧
    (∀ env₂ dR₂ fuel₂ fc sf c₂,
      runPicker env₂ dR₂ fuel₂ fc sf Ctx.init = .exited 0 c₂ →
      mainExit true env₂ dR₂ fuel₂ fc sf = some 0 ∧ c₂.summaryPrinted = false) := by
  refine ⟨runCommits_prop_exited env dryRun fuel h rest c c₁ 0 hq hx, ?_⟩
  intro env₂ dR₂ fuel₂ fc sf c₂ hrp
  refine ⟨by simp [mainExit, hrp], ?_⟩
  have := runPicker_exited_sp env₂ dR₂ fuel₂ fc sf Ctx.init 0 c₂ hrp
  simpa [Ctx.init] using this

/-- Witness for C3's amended claim at the concrete quit environment. -/
theorem c3_witness :
    (envQuit.opInProg 1).1 = false ∧
    runCommits envQuit false 9 ["abcdef1", "fedcba2"] ⟨1, 0, 0, 0, 2, [], false, false⟩ =
      .exited 0 ⟨6, 0, 0, 0, 2, [.gitCherryPick "abcdef1"], false, false⟩ :=
  ⟨by decide,
   (c3_quit_stops_run envQuit false 9 "abcdef1" ["fedcba2"]
     ⟨1, 0, 0, 0, 2, [], false, false⟩
     ⟨6, 0, 0, 0, 2, [.gitCherryPick "abcdef1"], false, false⟩
     (by decide) (by decide)).1⟩

/-- Claim C5 (counterexample): two commits are queued and an unexpected
exception (the status query underlying `has_conflicts` fails) is raised
while processing the first: the whole run aborts with `failed = 0` — no
`Failed(internal-error)` is recorded — the second commit is never attempted,
and the process exits 1; refuting "fatal for that commit only ... the run
proceeds to the next commit". -/
theorem c5_counterexample :
    runPicker envRaise false 9 (some twoCommitFile) none Ctx.init =
      .raised ⟨5, 0, 0, 0, 2, [.gitCherryPick "abcdef1"], false, false⟩ ∧
    (ctxOf (runPicker envRaise false 9 (some twoCommitFile) none Ctx.init)).failed
      = 0 ∧
    mainExit true envRaise false 9 (some twoCommitFile) none = some 1 :=
  ⟨by decide, by decide, by decide⟩

/-- Claim C5 (amended): an unexpected exception raised while processing a
commit is fatal to the WHOLE run, not to that commit only: it propagates
past every remaining queued commit with the context frozen (no ledger record
is added for the failing commit), and `main`'s `except Exception` handler
exits with code 1. -/
theorem c5_exception_aborts_run (env : Env) (dryRun : Bool) (fuel : Nat)
    (h : String) (rest : List String) (c c₁ : Ctx)
    (hq : (env.opInProg c.time).1 = false)
    (hx : cherryPickCommit env dryRun fuel h (tick c) = .raised c₁) :
    runCommits env dryRun fuel (h :: rest) c = .raised c₁ ∧
    (∀ env₂ dR₂ fuel₂ fc sf c₂,
      runPicker env₂ dR₂ fuel₂ fc sf Ctx.init = .raised c₂ →
      mainExit true env₂ dR₂ fuel₂ fc sf = some 1) := by
  refine ⟨runCommits_prop_raised env dryRun fuel h rest c c₁ hq hx, ?_⟩
  intro env₂ dR₂ fuel₂ fc sf c₂ hrp
  simp [mainExit, hrp]

/-- Witness for C5's amended claim at the concrete raising environment. -/
theorem c5_witness :
    (envRaise.opInProg 1).1 = false ∧
    runCommits envRaise false 9 ["abcdef1", "fedcba2"] ⟨1, 0, 0, 0, 2, [], false, false⟩ =
      .raised ⟨5, 0, 0, 0, 2, [.gitCherryPick "abcdef1"], false, false⟩ :=
  ⟨by decide,
   (c5_exception_aborts_run envRaise false 9 "abcdef1" ["fedcba2"]
     ⟨1, 0, 0, 0, 2, [], false, false⟩
     ⟨5, 0, 0, 0, 2, [.gitCherryPick "abcdef1"], false, false⟩
     (by decide) (by decide)).1⟩

/-- Claim C6 (counterexample): a run with a valid repository and a readable,
non-empty commits file still exits non-zero when an unexpected exception
occurs — refuting "non-zero exactly when a fatal precondition aborted the
run". -/
theorem c6_counterexample :
    mainExit true envRaise false 9 (some twoCommitFile) none = some 1 ∧
    parse_commits_file twoCommitFile none = .ok ["abcdef1", "fedcba2"] :=
  ⟨by decide, by rfl⟩

/-- Claim C6 (amended): the exit code is 1 when a fatal precondition aborts
the run (invalid repository; unreadable or hash-free commits file — the only
`sys.exit(1)` sources inside `run`), 0 when the run finishes (including
abandon) and on a `quit`'s `sys.exit(0)`, and 1 again when an unexpected
exception reaches `main`'s handler; every `sys.exit` code the run can raise
is 0 or 1. -/
theorem c6_exit_codes (env : Env) (dryRun : Bool) (fuel : Nat)
    (fileContent : Option (List Char)) (startFrom : Option String) :
    mainExit false env dryRun fuel fileContent startFrom = some 1 ∧
    (∀ c', runPicker env dryRun fuel fileContent startFrom Ctx.init = .ok () c' →
      mainExit true env dryRun fuel fileContent startFrom = some 0) ∧
    (∀ c', runPicker env dryRun fuel fileContent startFrom Ctx.init = .raised c' →
      mainExit true env dryRun fuel fileContent startFrom = some 1) ∧
    (∀ n c', runPicker env dryRun fuel fileContent startFrom Ctx.init = .exited n c' →
      (n = 0 ∨ n = 1) ∧
      mainExit true env dryRun fuel fileContent startFrom = some n) := by
  refine ⟨by simp [mainExit], ?_, ?_, ?_⟩
  · intro c' hr
    simp [mainExit, hr]
  · intro c' hr
    simp [mainExit, hr]
  · intro n c' hr
    exact ⟨runPicker_exit_01 env dryRun fuel fileContent startFrom Ctx.init n c' hr,
      by simp [mainExit, hr]⟩

/-- Witness for C6's amended claim: invalid repository exits 1, and the
raising environment exits 1 through the exception handler. -/
theorem c6_witness :
    mainExit false envClean false 3 (some twoCommitFile) none = some 1 ∧
    mainExit true envRaise false 9 (some twoCommitFile) none = some 1 :=
  ⟨(c6_exit_codes envClean false 3 (some twoCommitFile) none).1,
   (c6_exit_codes envRaise false 9 (some twoCommitFile) none).2.2.1
     ⟨5, 0, 0, 0, 2, [.gitCherryPick "abcdef1"], false, false⟩ (by decide)⟩

/-- Claim C4 (counterexample): on a tree that is not a valid repository the
operation probe does not fail at all — even with every marker present it
returns `(false, "")`, indistinguishable from a valid repository with no
operation open — refuting "fails ... and that failure is fatal and aborts
the whole run". -/
theorem c4_counterexample :
    is_git_operation_in_progress false (fun _ => true) = (false, "") ∧
    is_git_operation_in_progress false (fun _ => true) =
      is_git_operation_in_progress true (fun _ => false) :=
  ⟨by decide, by decide⟩

/-- Claim C4 (amended): `is_git_operation_in_progress` never fails: when the
tree is not a valid repository it catches the error and reports "no
operation in progress" (`(false, "")`); the invalid-repository abort happens
instead once, up front, in `main`, which exits 1 before any run state is
touched. -/
theorem c4_detect_never_fails :
    (∀ marker : String → Bool,
      is_git_operation_in_progress false marker = (false, "")) ∧
    (∀ (env : Env) (dryRun : Bool) (fuel : Nat) (fc : Option (List Char))
      (sf : Option String), mainExit false env dryRun fuel fc sf = some 1) := by
  constructor
  · intro marker
    simp [is_git_operation_in_progress]
  · intro env dryRun fuel fc sf
    simp [mainExit]

/-- Claim C7: the ledger counters satisfy
`successful + skipped + failed ≤ total` after processing any prefix of the
queue (hence at every commit boundary of the run), and a commit loop that
completes normally — reaching the end of the queue with no abandon (and no
`sys.exit`/exception, which would not return `.ok`) — has
`successful + skipped + failed = total`. -/
theorem c7_ledger_invariant (env : Env) (dryRun : Bool) (fuel : Nat)
    (commits : List String) (c : Ctx)
    (h0 : sumOf c = 0) (ht : c.total = commits.length) :
    (∀ k, sumOf (ctxOf (runCommits env dryRun fuel (commits.take k) c)) ≤ c.total) ∧
    (∀ c', runCommits env dryRun fuel commits c = .ok () c' → c'.abandoned = false →
      sumOf c' = c.total) := by
  constructor
  · intro k
    obtain ⟨-, h2, -⟩ := runCommits_ledger env dryRun fuel (commits.take k) c
    have h3 : (commits.take k).length ≤ commits.length := by
      rw [List.length_take]
      exact min_le_right _ _
    omega
  · intro c' he ha
    obtain ⟨-, -, h3⟩ := runCommits_ledger env dryRun fuel commits c
    have := h3 c' he ha
    omega

/-- Witness for C7 on a one-commit queue with a fresh zeroed ledger. -/
theorem c7_witness :
    sumOf ⟨0, 0, 0, 0, 1, [], false, false⟩ = 0 ∧
    sumOf (ctxOf (runCommits envClean false 3 ((["abcdef1"] : List String).take 1)
      ⟨0, 0, 0, 0, 1, [], false, false⟩)) ≤ (⟨0, 0, 0, 0, 1, [], false, false⟩ : Ctx).total :=
  ⟨by decide,
   (c7_ledger_invariant envClean false 3 ["abcdef1"] ⟨0, 0, 0, 0, 1, [], false, false⟩
     (by decide) (by decide)).1 1⟩

end CherryPick
